import Mathlib

/-!
Verification of the EPUB-to-speech pipeline core (sectioning, chunking,
resumable orchestration, audio concatenation) against its specification.

Modelling conventions (shallow embedding of the Python source):
* A Python `str` is modelled as a `List Char` (`PyStr`).  All string
  primitives used by the source (`split`, `strip`, `lower`, slicing,
  f-string formatting) are embedded below, restricted to ASCII where the
  Python originals are Unicode-aware.
* The filesystem is modelled as an association list from paths to file
  bytes; `os.path.exists` is membership on the first components and
  writing a file appends a pair.
* External collaborators (the Markdown→HTML renderer plus BeautifulSoup,
  the three cloud TTS SDKs, the markdown→SSML converter, and the pydub
  audio codec) are modelled at their interface boundary: the parsed
  document is passed in as a flat list of top-level soup elements, the
  TTS services are abstract functions from text to audio bytes, and
  decoding/concatenating/encoding MP3 data is modelled as concatenation
  of the files' byte strings.
-/

/-- A Python string, modelled as its list of characters. -/
abbrev PyStr := List Char

/-- Coerce a Lean string literal to the `PyStr` model. -/
def pystr (s : String) : PyStr := s.data

/-- Python `str.strip()` whitespace set (ASCII part): space, tab, newline,
carriage return, vertical tab, form feed.  This is also the (ASCII part of
the) regex class `\s` used by `re.sub` in the source. -/
def pyWhitespace (c : Char) : Bool :=
  c = ' ' || c = '\t' || c = '\n' || c = '\r' || c = '\x0b' || c = '\x0c'

/-- Python `s.strip()`: drop leading and trailing whitespace. -/
def pyStrip (s : PyStr) : PyStr :=
  ((s.dropWhile pyWhitespace).reverse.dropWhile pyWhitespace).reverse

/-- Python `content.split('. ')`: split on each non-overlapping occurrence
of the two-character delimiter `". "`, scanning left to right
(`speech_generator.py`, line 168). -/
def pySplitDotSpace : PyStr → List PyStr
  | [] => [[]]
  | '.' :: ' ' :: rest => [] :: pySplitDotSpace rest
  | c :: rest =>
    match pySplitDotSpace rest with
    | [] => [[c]]
    | p :: ps => (c :: p) :: ps

/-- The loop body `if i < len(sentences) - 1: sentence += ". "`
(`speech_generator.py`, lines 173–175): reattach the delimiter to every
sentence except the last. -/
def reattachDelims : List PyStr → List PyStr
  | [] => []
  | [s] => [s]
  | s :: rest => (s ++ ['.', ' ']) :: reattachDelims rest

/-- The greedy accumulation loop of `split_content_into_chunks`
(`speech_generator.py`, lines 169–185): `chunks` is the list built so far,
`current` is `current_chunk`; a sentence that would overflow flushes the
stripped buffer and starts a new buffer with that sentence; at the end the
final buffer is flushed if non-empty (Python truthiness of a string). -/
def chunkLoop (max_chars : Nat) : List PyStr → List PyStr → PyStr → List PyStr
  | [], chunks, current =>
    if current = [] then chunks else chunks ++ [pyStrip current]
  | s :: rest, chunks, current =>
    if max_chars < current.length + s.length then
      chunkLoop max_chars rest (chunks ++ [pyStrip current]) s
    else
      chunkLoop max_chars rest chunks (current ++ s)

/-- Embedding of `split_content_into_chunks(content, max_chars=4096)`
(`speech_generator.py`, lines 155–187). -/
def split_content_into_chunks (content : PyStr) (max_chars : Nat := 4096) :
    List PyStr :=
  chunkLoop max_chars (reattachDelims (pySplitDotSpace content)) [] []

example : split_content_into_chunks (pystr "Hello. World.") 4096 =
    [pystr "Hello. World."] := by decide

example : split_content_into_chunks (pystr "Hello. World. Bye.") 9 =
    [pystr "Hello.", pystr "World.", pystr "Bye."] := by decide

example : split_content_into_chunks (pystr "") 4096 = [] := by decide

/-! ### Chunker lemmas (claims C1, C2) -/

lemma pyStrip_length_le (s : PyStr) : (pyStrip s).length ≤ s.length := by
  unfold pyStrip
  calc ((s.dropWhile pyWhitespace).reverse.dropWhile pyWhitespace).reverse.length
      = ((s.dropWhile pyWhitespace).reverse.dropWhile pyWhitespace).length := by
        rw [List.length_reverse]
    _ ≤ (s.dropWhile pyWhitespace).reverse.length :=
        (List.dropWhile_sublist pyWhitespace).length_le
    _ = (s.dropWhile pyWhitespace).length := by rw [List.length_reverse]
    _ ≤ s.length := (List.dropWhile_sublist pyWhitespace).length_le

/-- Invariant step for the flush of `current_chunk`: a flushed buffer either
fits within the limit or is a single (oversized) sentence, stripped. -/
lemma flushed_buffer_ok (max_chars : Nat) (sents : List PyStr) (current : PyStr)
    (hcur : current.length ≤ max_chars ∨ current ∈ sents) :
    (pyStrip current).length ≤ max_chars ∨
      ∃ s ∈ sents, pyStrip current = pyStrip s ∧ max_chars < s.length := by
  by_cases hlen : current.length ≤ max_chars
  · exact Or.inl (le_trans (pyStrip_length_le current) hlen)
  · rcases hcur with h | h
    · exact absurd h hlen
    · exact Or.inr ⟨current, h, rfl, Nat.lt_of_not_le hlen⟩

/-- Size invariant of the greedy accumulation loop: every chunk it ever
emits either fits in `max_chars` or is the strip of a single sentence from
`sents` whose own length exceeds `max_chars`. -/
lemma chunkLoop_sizes (max_chars : Nat) (sents : List PyStr) :
    ∀ (rest : List PyStr), (∀ s ∈ rest, s ∈ sents) →
    ∀ (chunks : List PyStr) (current : PyStr),
      (∀ c ∈ chunks, c.length ≤ max_chars ∨
        ∃ s ∈ sents, c = pyStrip s ∧ max_chars < s.length) →
      (current.length ≤ max_chars ∨ current ∈ sents) →
      ∀ c ∈ chunkLoop max_chars rest chunks current,
        c.length ≤ max_chars ∨
          ∃ s ∈ sents, c = pyStrip s ∧ max_chars < s.length := by
  intro rest
  induction rest with
  | nil =>
    intro _ chunks current hch hcur c hc
    by_cases hemp : current = []
    · simp only [chunkLoop, if_pos hemp] at hc
      exact hch c hc
    · simp only [chunkLoop, if_neg hemp, List.mem_append, List.mem_singleton] at hc
      rcases hc with hc | hc
      · exact hch c hc
      · subst hc
        exact flushed_buffer_ok max_chars sents current hcur
  | cons s rest ih =>
    intro hsub chunks current hch hcur c hc
    have hs : s ∈ sents := hsub s (by simp)
    have hsub' : ∀ x ∈ rest, x ∈ sents := fun x hx => hsub x (by simp [hx])
    by_cases hflow : max_chars < current.length + s.length
    · simp only [chunkLoop, if_pos hflow] at hc
      refine ih hsub' _ s ?_ (Or.inr hs) c hc
      intro c' hc'
      rcases List.mem_append.mp hc' with h | h
      · exact hch c' h
      · rw [List.mem_singleton] at h
        subst h
        exact flushed_buffer_ok max_chars sents current hcur
    · simp only [chunkLoop, if_neg hflow] at hc
      refine ih hsub' chunks (current ++ s) hch ?_ c hc
      left
      rw [List.length_append]
      exact Nat.le_of_not_lt hflow

lemma pySplitDotSpace_ne_nil (cs : PyStr) : pySplitDotSpace cs ≠ [] := by
  induction cs using pySplitDotSpace.induct with
  | case1 => simp [pySplitDotSpace]
  | case2 rest ih => simp [pySplitDotSpace]
  | case3 c rest h hm ih => exact absurd hm ih
  | case4 c rest h p ps hm ih => simp [pySplitDotSpace, hm]

/-- Splitting on `". "` and reattaching the delimiter to every sentence but
the last loses nothing: the concatenation of the reattached sentences is
the original string. -/
lemma flatten_reattach_split (cs : PyStr) :
    (reattachDelims (pySplitDotSpace cs)).flatten = cs := by
  induction cs using pySplitDotSpace.induct with
  | case1 => rfl
  | case2 rest ih =>
    obtain ⟨p, ps, hps⟩ : ∃ p ps, pySplitDotSpace rest = p :: ps := by
      cases hq : pySplitDotSpace rest with
      | nil => exact absurd hq (pySplitDotSpace_ne_nil rest)
      | cons p ps => exact ⟨p, ps, rfl⟩
    rw [hps] at ih
    show (reattachDelims ([] :: pySplitDotSpace rest)).flatten = '.' :: ' ' :: rest
    rw [hps]
    show (([] ++ ['.', ' ']) :: reattachDelims (p :: ps)).flatten = '.' :: ' ' :: rest
    simp only [List.nil_append, List.flatten_cons]
    rw [ih]; rfl
  | case3 c rest h hm ih => exact absurd hm (pySplitDotSpace_ne_nil rest)
  | case4 c rest h p ps hm ih =>
    rw [hm] at ih
    show (reattachDelims (pySplitDotSpace (c :: rest))).flatten = c :: rest
    have hsl : pySplitDotSpace (c :: rest) = (c :: p) :: ps := by
      simp [pySplitDotSpace, hm]
    rw [hsl]
    cases ps with
    | nil =>
      simp only [reattachDelims, List.flatten_cons, List.flatten_nil,
        List.append_nil] at ih ⊢
      rw [ih]
    | cons q qs =>
      simp only [reattachDelims, List.flatten_cons] at ih ⊢
      rw [← ih]
      simp

/-- Reconstruction invariant of the accumulation loop: the emitted chunks
are the strips of buffers whose concatenation is exactly the unconsumed
input prefixed by the current buffer. -/
lemma chunkLoop_reconstruct (max_chars : Nat) :
    ∀ (rest us : List PyStr) (current : PyStr),
      ∃ vs : List PyStr,
        chunkLoop max_chars rest (us.map pyStrip) current =
          ((us ++ vs).map pyStrip) ∧
        vs.flatten = current ++ rest.flatten := by
  intro rest
  induction rest with
  | nil =>
    intro us current
    by_cases h : current = []
    · exact ⟨[], by simp [chunkLoop, h], by simp [h]⟩
    · refine ⟨[current], ?_, by simp⟩
      simp [chunkLoop, h]
  | cons s rest ih =>
    intro us current
    by_cases h : max_chars < current.length + s.length
    · obtain ⟨vs', h1, h2⟩ := ih (us ++ [current]) s
      refine ⟨current :: vs', ?_, ?_⟩
      · simp only [chunkLoop, if_pos h]
        have e1 : List.map pyStrip us ++ [pyStrip current] =
            List.map pyStrip (us ++ [current]) := by simp
        rw [e1, h1]
        simp
      · simp only [List.flatten_cons, h2, List.flatten_cons]
    · obtain ⟨vs, h1, h2⟩ := ih us (current ++ s)
      refine ⟨vs, ?_, ?_⟩
      · simp only [chunkLoop, if_neg h]
        exact h1
      · simp only [h2, List.flatten_cons]
        simp [List.append_assoc]

/-- C1: for every content string and `max_size > 0`, every chunk returned
by `split_content_into_chunks` has length at most `max_size`, except that a
chunk which is (the strip of) a single sentence whose own length exceeds
`max_size` may be emitted oversized — sentences are never split. -/
theorem chunker_size_bound (content : PyStr) (max_chars : Nat)
    (hpos : 0 < max_chars) :
    ∀ chunk ∈ split_content_into_chunks content max_chars,
      chunk.length ≤ max_chars ∨
        ∃ s ∈ reattachDelims (pySplitDotSpace content),
          chunk = pyStrip s ∧ max_chars < s.length := by
  intro chunk hc
  exact chunkLoop_sizes max_chars (reattachDelims (pySplitDotSpace content))
    (reattachDelims (pySplitDotSpace content)) (fun s hs => hs)
    [] [] (by simp) (Or.inl (by simp)) chunk hc

theorem chunker_size_bound_witness :
    (pystr "Hello. World.").length ≤ 4096 ∨
      ∃ s ∈ reattachDelims (pySplitDotSpace (pystr "Hello. World.")),
        pystr "Hello. World." = pyStrip s ∧ 4096 < s.length :=
  chunker_size_bound (pystr "Hello. World.") 4096 (by decide)
    (pystr "Hello. World.") (by decide)

/-- C2: the chunks are obtained from buffers (each already carrying its
`". "` delimiters as reattached by the split) by trimming whitespace at the
two ends of each buffer only, and the buffers concatenate back to the
original content exactly — the round-trip law. -/
theorem chunker_round_trip (content : PyStr) (max_chars : Nat)
    (hpos : 0 < max_chars) :
    ∃ us : List PyStr,
      split_content_into_chunks content max_chars = us.map pyStrip ∧
      us.flatten = content := by
  obtain ⟨vs, h1, h2⟩ := chunkLoop_reconstruct max_chars
    (reattachDelims (pySplitDotSpace content)) [] []
  refine ⟨vs, ?_, ?_⟩
  · simpa [split_content_into_chunks] using h1
  · rw [h2, List.nil_append, flatten_reattach_split]

theorem chunker_round_trip_witness :
    ∃ us : List PyStr,
      split_content_into_chunks (pystr "Hello. World. Bye.") 9 =
        us.map pyStrip ∧
      us.flatten = pystr "Hello. World. Bye." :=
  chunker_round_trip (pystr "Hello. World. Bye.") 9 (by decide)

/-! ### Sectioner (`split_markdown_into_sections`, claims C5, C6, C9)

The Markdown renderer and BeautifulSoup are external collaborators: the
parsed document is modelled as the flat list `soup.contents` of top-level
elements, each one either a tag (with a name, e.g. `h1`/`h2`/`p`) or a bare
text node (`name = none`).  `text` is the element's `get_text()` (for a
text node, the string itself); `truthy` is the element's Python truthiness
(`False` for an empty text node or a tag with no children), which the
source's sibling walk tests with `while element and ...`.  The model
assumes headings occur only at the top level of the parsed document, which
holds for the flat block structure the Markdown renderer emits. -/

structure SoupElement where
  name : Option PyStr
  text : PyStr
  truthy : Bool := true
  deriving DecidableEq

/-- The heading selection `soup.find_all(['h1', 'h2'])` (subheading mode)
or `soup.find_all(['h1'])` (`speech_generator.py`, lines 107–110), as a
predicate on one element. -/
def isHeading (split_at_subheadings : Bool) (e : SoupElement) : Bool :=
  match e.name with
  | some n => n = pystr "h1" || (split_at_subheadings && n = pystr "h2")
  | none => false

/-- The per-heading sibling walk (`speech_generator.py`, lines 131–150):
each selected heading yields a section whose content is the heading's own
text and then every following sibling's text (each suffixed `"\n\n"`) up to
the next selected heading, a falsy element, or the end of the document. -/
def buildSections (split_at_subheadings : Bool) :
    List SoupElement → List (PyStr × PyStr)
  | [] => []
  | e :: es =>
    if isHeading split_at_subheadings e then
      let body := es.takeWhile fun x =>
        x.truthy && !isHeading split_at_subheadings x
      (e.text, e.text ++ pystr "\n\n" ++
          (body.map fun x => x.text ++ pystr "\n\n").flatten) ::
        buildSections split_at_subheadings es
    else
      buildSections split_at_subheadings es

/-- The intro collection loop (`speech_generator.py`, lines 119–126): the
stripped texts (suffixed `"\n\n"`) of the non-blank elements preceding the
first selected heading. -/
def introParts (split_at_subheadings : Bool)
    (elements : List SoupElement) : List PyStr :=
  (elements.takeWhile fun e => !isHeading split_at_subheadings e).filterMap
    fun e =>
      if pyStrip e.text = [] then none
      else some (pyStrip e.text ++ pystr "\n\n")

/-- Embedding of `split_markdown_into_sections(markdown_content,
split_at_subheadings=False)` (`speech_generator.py`, lines 92–152), with
the externally parsed soup passed alongside the raw markdown string. -/
def split_markdown_into_sections (markdown_content : PyStr)
    (elements : List SoupElement) (split_at_subheadings : Bool := false) :
    List (PyStr × PyStr) :=
  if elements.filter (isHeading split_at_subheadings) = [] then
    [(pystr "Content", markdown_content)]
  else
    (if introParts split_at_subheadings elements = [] then []
     else [(pystr "Intro",
            (introParts split_at_subheadings elements).flatten)]) ++
    buildSections split_at_subheadings elements

/-- The document text preceding the first selected heading (concatenation
of the earlier elements' texts); the claim's trigger for the synthetic
`"Intro"` section. -/
def preHeadingText (split_at_subheadings : Bool)
    (elements : List SoupElement) : PyStr :=
  ((elements.takeWhile fun e => !isHeading split_at_subheadings e).map
    SoupElement.text).flatten

lemma buildSections_titles (b : Bool) (es : List SoupElement) :
    (buildSections b es).map Prod.fst =
      (es.filter (isHeading b)).map SoupElement.text := by
  induction es with
  | nil => rfl
  | cons e es ih =>
    by_cases h : isHeading b e
    · simp [buildSections, h, ih]
    · simp [buildSections, h, ih]

lemma buildSections_length (b : Bool) (es : List SoupElement) :
    (buildSections b es).length = (es.filter (isHeading b)).length := by
  have h := congrArg List.length (buildSections_titles b es)
  simpa using h

lemma pyStrip_eq_nil_iff (l : PyStr) :
    pyStrip l = [] ↔ ∀ c ∈ l, pyWhitespace c := by
  unfold pyStrip
  rw [List.reverse_eq_nil_iff, List.dropWhile_eq_nil_iff]
  constructor
  · intro h c hc
    rcases List.mem_append.mp
        ((List.takeWhile_append_dropWhile pyWhitespace l) ▸ hc) with h1 | h1
    · exact List.mem_takeWhile_imp h1
    · exact h c (List.mem_reverse.mpr h1)
  · intro h c hc
    exact h c ((List.dropWhile_sublist pyWhitespace).subset
      (List.mem_reverse.mp hc))

/-- The source's intro condition (`if intro_parts:`) agrees with the
claim's phrasing: some pre-heading content survives trimming. -/
lemma introParts_eq_nil_iff (b : Bool) (elements : List SoupElement) :
    introParts b elements = [] ↔ pyStrip (preHeadingText b elements) = [] := by
  unfold introParts preHeadingText
  rw [List.filterMap_eq_nil_iff, pyStrip_eq_nil_iff]
  constructor
  · intro h c hc
    obtain ⟨t, ht, hct⟩ := List.mem_flatten.mp hc
    obtain ⟨e, he, rfl⟩ := List.mem_map.mp ht
    have := h e he
    by_cases hs : pyStrip e.text = []
    · exact (pyStrip_eq_nil_iff e.text).mp hs c hct
    · rw [if_neg hs] at this
      exact absurd this (by simp)
  · intro h e he
    rw [if_pos]
    rw [pyStrip_eq_nil_iff]
    intro c hc
    exact h c (List.mem_flatten.mpr
      ⟨e.text, List.mem_map.mpr ⟨e, he, rfl⟩, hc⟩)

/-- C5: when the document has at least one heading at the selected depth,
the sections come out in document order — the full title list is the
optional synthetic `"Intro"` title (present exactly when the pre-heading
content is non-empty after trimming) followed by exactly the selected
headings' texts, in order — and the section count is the heading count
plus one exactly when that pre-heading content is non-empty after
trimming. -/
theorem sectioner_order_count (markdown_content : PyStr)
    (elements : List SoupElement) (split_at_subheadings : Bool)
    (hhead : elements.filter (isHeading split_at_subheadings) ≠ []) :
    (split_markdown_into_sections markdown_content elements
        split_at_subheadings).length =
      (if pyStrip (preHeadingText split_at_subheadings elements) = []
        then 0 else 1) +
      (elements.filter (isHeading split_at_subheadings)).length ∧
    ((split_markdown_into_sections markdown_content elements
        split_at_subheadings).drop
      (if pyStrip (preHeadingText split_at_subheadings elements) = []
        then 0 else 1)).map Prod.fst =
      (elements.filter (isHeading split_at_subheadings)).map
        SoupElement.text ∧
    (split_markdown_into_sections markdown_content elements
        split_at_subheadings).map Prod.fst =
      (if pyStrip (preHeadingText split_at_subheadings elements) = []
        then [] else [pystr "Intro"]) ++
      (elements.filter (isHeading split_at_subheadings)).map
        SoupElement.text := by
  unfold split_markdown_into_sections
  rw [if_neg hhead]
  by_cases hintro : introParts split_at_subheadings elements = []
  · rw [if_pos hintro]
    have h0 : pyStrip (preHeadingText split_at_subheadings elements) = [] :=
      (introParts_eq_nil_iff split_at_subheadings elements).mp hintro
    simp only [if_pos h0, List.nil_append, List.drop_zero, Nat.zero_add]
    exact ⟨buildSections_length split_at_subheadings elements,
      buildSections_titles split_at_subheadings elements,
      buildSections_titles split_at_subheadings elements⟩
  · rw [if_neg hintro]
    have hpre : ¬ pyStrip (preHeadingText split_at_subheadings elements)
        = [] := fun h =>
      hintro ((introParts_eq_nil_iff split_at_subheadings elements).mpr h)
    simp only [if_neg hpre]
    refine ⟨?_, ?_, ?_⟩
    · simp only [List.singleton_append, List.length_cons,
        buildSections_length]
      omega
    · simp only [List.singleton_append, List.drop_succ_cons,
        List.drop_zero]
      exact buildSections_titles split_at_subheadings elements
    · simp only [List.singleton_append, List.map_cons,
        buildSections_titles]

/-- A concrete parsed document (intro text, then two h1 sections) used by
the sectioner witness. -/
def sectionerWitnessSoup : List SoupElement :=
  [⟨none, pystr "intro", true⟩,
   ⟨some (pystr "h1"), pystr "A", true⟩,
   ⟨some (pystr "p"), pystr "x", true⟩,
   ⟨some (pystr "h1"), pystr "B", true⟩,
   ⟨some (pystr "p"), pystr "y", true⟩]

theorem sectioner_order_count_witness :
    (split_markdown_into_sections (pystr "intro\n# A\nx\n# B\ny")
        sectionerWitnessSoup false).length =
      (if pyStrip (preHeadingText false sectionerWitnessSoup) = []
        then 0 else 1) +
      (sectionerWitnessSoup.filter (isHeading false)).length ∧
    ((split_markdown_into_sections (pystr "intro\n# A\nx\n# B\ny")
        sectionerWitnessSoup false).drop
      (if pyStrip (preHeadingText false sectionerWitnessSoup) = []
        then 0 else 1)).map Prod.fst =
      (sectionerWitnessSoup.filter (isHeading false)).map
        SoupElement.text ∧
    (split_markdown_into_sections (pystr "intro\n# A\nx\n# B\ny")
        sectionerWitnessSoup false).map Prod.fst =
      (if pyStrip (preHeadingText false sectionerWitnessSoup) = []
        then [] else [pystr "Intro"]) ++
      (sectionerWitnessSoup.filter (isHeading false)).map
        SoupElement.text :=
  sectioner_order_count (pystr "intro\n# A\nx\n# B\ny")
    sectionerWitnessSoup false (by decide)

/-- C6: a document with no heading at the selected depth yields exactly one
section titled `"Content"` whose content is the full raw document text. -/
theorem sectioner_no_headings (markdown_content : PyStr)
    (elements : List SoupElement) (split_at_subheadings : Bool)
    (hhead : elements.filter (isHeading split_at_subheadings) = []) :
    split_markdown_into_sections markdown_content elements
        split_at_subheadings =
      [(pystr "Content", markdown_content)] := by
  unfold split_markdown_into_sections
  rw [if_pos hhead]

/-! ### Pipeline Orchestrator (`generate_speech_from_markdown`,
claims C3, C4, C7, C9, C10)

The three TTS services are external collaborators constructed with a fixed
voice (and, for OpenAI, an instruction string); they are modelled as one
abstract `Backend` of functions from input text to audio bytes, with the
markdown→SSML conversion (`convert_markdown_to_ssml` composed with
`format_ssml_for_azure`, both external) as a third abstract function.  The
filesystem is an association list of (path, bytes); `os.path.exists` tests
path membership and writing appends (the pipeline never writes the same
path twice in a run, since it writes only paths that failed the existence
check). -/

/-- ASCII fragment of the regex class `\w` used by
`re.sub(r'[^\w\s-]', '', ...)`: letters, digits, underscore. -/
def reWordChar (c : Char) : Bool := c.isAlphanum || c = '_'

/-- Python `f"{n:02d}"`: decimal digits, zero-padded to width two. -/
def fmt02 (n : Nat) : PyStr :=
  if n < 10 then '0' :: Nat.toDigits 10 n else Nat.toDigits 10 n

/-- Helper for `collapseWhitespace`: the flag records whether the previous
character was whitespace (i.e. we are inside a run already replaced). -/
def collapseWhitespaceAux : Bool → PyStr → PyStr
  | _, [] => []
  | inRun, c :: cs =>
    if pyWhitespace c then
      if inRun then collapseWhitespaceAux true cs
      else '_' :: collapseWhitespaceAux true cs
    else c :: collapseWhitespaceAux false cs

/-- Python `re.sub(r'[\s]+', '_', s)`: each maximal whitespace run becomes
one underscore. -/
def collapseWhitespace (l : PyStr) : PyStr := collapseWhitespaceAux false l

/-- The title sanitization (`speech_generator.py`, lines 55–56):
lower-case, strip characters outside `\w`, `\s`, `-`, then collapse
whitespace runs to underscores (ASCII model of the Unicode-aware Python
originals). -/
def safe_title (title : PyStr) : PyStr :=
  collapseWhitespace ((title.map Char.toLower).filter fun c =>
    reWordChar c || pyWhitespace c || c = '-')

/-- `file_basename = f"{section_ix+1:02d}_{safe_title[:30]}"`
(`speech_generator.py`, line 57). -/
def file_basename (section_ix : Nat) (title : PyStr) : PyStr :=
  fmt02 (section_ix + 1) ++ ['_'] ++ (safe_title title).take 30

/-- The chunk's output filename (`speech_generator.py`, lines 66–69):
the bare basename for a single-chunk section, else `_pt<NN>` suffixed,
always with the fixed `.mp3` extension. -/
def chunk_filename (basename : PyStr) (num_chunks chunk_ix : Nat) : PyStr :=
  if num_chunks = 1 then basename ++ pystr ".mp3"
  else basename ++ pystr "_pt" ++ fmt02 chunk_ix ++ pystr ".mp3"

example : file_basename 0 (pystr "Chapter One") = pystr "01_chapter_one" := by
  decide

/-- The filesystem model: an association list path ↦ file bytes. -/
abbrev Fs := List (PyStr × PyStr)

/-- `os.path.exists`. -/
def fsExists (fs : Fs) (path : PyStr) : Bool := fs.any fun pb => pb.1 = path

/-- Creating a file with the given bytes. -/
def fsWrite (fs : Fs) (path bytes : PyStr) : Fs := fs ++ [(path, bytes)]

/-- One synthesis call to the backend: either the plain-text entry point or
the SSML entry point. -/
inductive SynthRequest where
  | text (chunk : PyStr)
  | ssml (chunk : PyStr)
  deriving DecidableEq

/-- Abstract synthesis backend (external collaborator), fixed for the run:
the plain-text and SSML synthesis calls and the markdown→SSML conversion
applied to chunks in markup mode. -/
structure Backend where
  synthText : PyStr → PyStr
  synthSSML : PyStr → PyStr
  ssmlConvert : PyStr → PyStr

/-- Observable state threaded through a pipeline run: the filesystem and
the trace of backend synthesis calls issued so far. -/
structure OrchState where
  fs : Fs
  calls : List SynthRequest
  deriving DecidableEq

/-- The inner chunk loop (`speech_generator.py`, lines 64–86): derive the
chunk's output path; if it already exists, skip the chunk entirely
(resumability); otherwise issue one synthesis call, write the audio bytes,
and record the `(chunk_index, file_basename, output_path)` tuple. -/
def orchChunks (output_dir basename : PyStr) (num_chunks : Nat)
    (ssmlMode : Bool) (bk : Backend) :
    Nat → List PyStr → OrchState →
      List (Nat × PyStr × PyStr) × OrchState
  | _, [], st => ([], st)
  | chunk_ix, chunk :: rest, st =>
    let output_path :=
      output_dir ++ ['/'] ++ chunk_filename basename num_chunks chunk_ix
    if fsExists st.fs output_path then
      orchChunks output_dir basename num_chunks ssmlMode bk
        (chunk_ix + 1) rest st
    else
      let audio := if ssmlMode then bk.synthSSML chunk else bk.synthText chunk
      let req := if ssmlMode then SynthRequest.ssml chunk
        else SynthRequest.text chunk
      let st' : OrchState :=
        ⟨fsWrite st.fs output_path audio, st.calls ++ [req]⟩
      let r := orchChunks output_dir basename num_chunks ssmlMode bk
        (chunk_ix + 1) rest st'
      ((chunk_ix, basename, output_path) :: r.1, r.2)

/-- The outer section loop (`speech_generator.py`, lines 53–88): per
section derive the basename, chunk the content (converting each chunk to
SSML in markup mode), run the chunk loop, and append the section's group of
recorded tuples. -/
def orchSections (output_dir : PyStr) (ssmlMode : Bool) (bk : Backend) :
    Nat → List (PyStr × PyStr) → OrchState →
      List (List (Nat × PyStr × PyStr)) × OrchState
  | _, [], st => ([], st)
  | section_ix, (title, content) :: rest, st =>
    let basename := file_basename section_ix title
    let chunks0 := split_content_into_chunks content
    let chunks := if ssmlMode then chunks0.map bk.ssmlConvert else chunks0
    let r1 := orchChunks output_dir basename chunks.length ssmlMode bk
      0 chunks st
    let r2 := orchSections output_dir ssmlMode bk (section_ix + 1) rest r1.2
    (r1.1 :: r2.1, r2.2)

/-- Embedding of `generate_speech_from_markdown` (`speech_generator.py`,
lines 12–90): section the document, reject an unknown service name
(`ValueError`, modelled as `Except.error`), then run the orchestration
loop.  Markup mode is in effect only when `use_ssml` is set and the
service is `azure` (lines 61–62 and 76–79). -/
def generate_speech_from_markdown (markdown_content : PyStr)
    (elements : List SoupElement) (output_dir service : PyStr)
    (split_at_subheadings use_ssml : Bool) (bk : Backend) (fs0 : Fs) :
    Except PyStr (List (List (Nat × PyStr × PyStr)) × OrchState) :=
  let sections :=
    split_markdown_into_sections markdown_content elements
      split_at_subheadings
  if service = pystr "openai" ∨ service = pystr "google" ∨
      service = pystr "azure" then
    let ssmlMode := use_ssml && decide (service = pystr "azure")
    .ok (orchSections output_dir ssmlMode bk 0 sections ⟨fs0, []⟩)
  else
    .error (pystr "Unsupported service")

/-- A concrete backend instance used by the closed scenario theorems. -/
def constBackend : Backend :=
  ⟨fun _ => pystr "AUDIO", fun _ => pystr "SSMLAUDIO", fun c => c⟩

/-- C4 counterexample: with `use_ssml=True` and the `openai` service — a
(backend, markup-mode) pair the backend does not support — the pipeline
reports no configuration error and still issues a (plain-text) synthesis
call: the run succeeds and the call trace contains one `text` request. -/
theorem markup_mode_unsupported_counterexample :
    generate_speech_from_markdown (pystr "Hi.")
        [⟨some (pystr "p"), pystr "Hi.", true⟩]
        (pystr "out") (pystr "openai") false true constBackend [] =
      .ok ([[(0, pystr "01_content", pystr "out/01_content.mp3")]],
        ⟨[(pystr "out/01_content.mp3", pystr "AUDIO")],
         [SynthRequest.text (pystr "Hi.")]⟩) := by rfl

/-- C4 (amended): requesting markup mode on a service other than `azure`
is silently ignored — the run is identical to a plain-text run (same
synthesis calls, same files, same recorded tuples); no configuration error
is raised for the unsupported (backend, markup-mode) pair. -/
theorem markup_mode_ignored_on_non_azure (markdown_content : PyStr)
    (elements : List SoupElement) (output_dir service : PyStr)
    (split_at_subheadings : Bool) (bk : Backend) (fs0 : Fs)
    (hsvc : service ≠ pystr "azure") :
    generate_speech_from_markdown markdown_content elements output_dir
        service split_at_subheadings true bk fs0 =
      generate_speech_from_markdown markdown_content elements output_dir
        service split_at_subheadings false bk fs0 := by
  simp [generate_speech_from_markdown, hsvc]

lemma fsExists_write_mono (fs : Fs) (p q b : PyStr)
    (h : fsExists fs p = true) : fsExists (fsWrite fs q b) p = true := by
  simp only [fsExists, fsWrite, List.any_append, Bool.or_eq_true]
  exact Or.inl h

lemma fsExists_write_self (fs : Fs) (p b : PyStr) :
    fsExists (fsWrite fs p b) p = true := by
  simp [fsExists, fsWrite]

/-- The chunk loop only adds files: any path present before it runs is
still present afterwards. -/
lemma orchChunks_fs_mono (output_dir basename : PyStr) (num_chunks : Nat)
    (ssmlMode : Bool) (bk : Backend) :
    ∀ (chunks : List PyStr) (j : Nat) (st : OrchState) (p : PyStr),
      fsExists st.fs p = true →
      fsExists (orchChunks output_dir basename num_chunks ssmlMode bk
        j chunks st).2.fs p = true := by
  intro chunks
  induction chunks with
  | nil => intro j st p h; simpa [orchChunks] using h
  | cons chunk rest ih =>
    intro j st p h
    simp only [orchChunks]
    by_cases hex : fsExists st.fs
        (output_dir ++ ['/'] ++ chunk_filename basename num_chunks j) = true
    · rw [if_pos hex]
      exact ih (j + 1) st p h
    · rw [if_neg hex]
      exact ih (j + 1) _ p (fsExists_write_mono st.fs p _ _ h)

/-- The paths the chunk loop will compute, starting at chunk index `j`,
for `k` remaining chunks. -/
def chunkPaths (output_dir basename : PyStr) (num_chunks : Nat) :
    Nat → Nat → List PyStr
  | _, 0 => []
  | j, k + 1 =>
    (output_dir ++ ['/'] ++ chunk_filename basename num_chunks j) ::
      chunkPaths output_dir basename num_chunks (j + 1) k

/-- After the chunk loop runs, every one of its computed output paths
exists on disk (it was either already there or has just been written). -/
lemma orchChunks_covers (output_dir basename : PyStr) (num_chunks : Nat)
    (ssmlMode : Bool) (bk : Backend) :
    ∀ (chunks : List PyStr) (j : Nat) (st : OrchState),
      ∀ p ∈ chunkPaths output_dir basename num_chunks j chunks.length,
        fsExists (orchChunks output_dir basename num_chunks ssmlMode bk
          j chunks st).2.fs p = true := by
  intro chunks
  induction chunks with
  | nil => intro j st p hp; simp [chunkPaths] at hp
  | cons chunk rest ih =>
    intro j st p hp
    simp only [List.length_cons, chunkPaths, List.mem_cons] at hp
    simp only [orchChunks]
    by_cases hex : fsExists st.fs
        (output_dir ++ ['/'] ++ chunk_filename basename num_chunks j) = true
    · rw [if_pos hex]
      rcases hp with rfl | hp
      · exact orchChunks_fs_mono output_dir basename num_chunks ssmlMode bk
          rest (j + 1) st _ hex
      · exact ih (j + 1) st p hp
    · rw [if_neg hex]
      rcases hp with rfl | hp
      · exact orchChunks_fs_mono output_dir basename num_chunks ssmlMode bk
          rest (j + 1) _ _ (fsExists_write_self st.fs _ _)
      · exact ih (j + 1) _ p hp

/-- Resumability of the chunk loop: when every computed output path
already exists, every chunk is skipped — no synthesis call, no write, no
recorded tuple. -/
lemma orchChunks_skip (output_dir basename : PyStr) (num_chunks : Nat)
    (ssmlMode : Bool) (bk : Backend) :
    ∀ (chunks : List PyStr) (j : Nat) (st : OrchState),
      (∀ p ∈ chunkPaths output_dir basename num_chunks j chunks.length,
        fsExists st.fs p = true) →
      orchChunks output_dir basename num_chunks ssmlMode bk j chunks st =
        ([], st) := by
  intro chunks
  induction chunks with
  | nil => intro j st _; rfl
  | cons chunk rest ih =>
    intro j st h
    have hex : fsExists st.fs
        (output_dir ++ ['/'] ++ chunk_filename basename num_chunks j) =
          true :=
      h _ (List.mem_cons_self _ _)
    simp only [orchChunks, if_pos hex]
    exact ih (j + 1) st fun p hp => h p (List.mem_cons_of_mem _ hp)

/-- All output paths a run over the given sections will compute, starting
at section index `ix`. -/
def allChunkPaths (output_dir : PyStr) :
    Nat → List (PyStr × PyStr) → List PyStr
  | _, [] => []
  | ix, (title, content) :: rest =>
    chunkPaths output_dir (file_basename ix title)
        (split_content_into_chunks content).length 0
        (split_content_into_chunks content).length ++
      allChunkPaths output_dir (ix + 1) rest

/-- The section loop only adds files. -/
lemma orchSections_fs_mono (output_dir : PyStr) (ssmlMode : Bool)
    (bk : Backend) :
    ∀ (secs : List (PyStr × PyStr)) (ix : Nat) (st : OrchState) (p : PyStr),
      fsExists st.fs p = true →
      fsExists (orchSections output_dir ssmlMode bk ix secs st).2.fs p =
        true := by
  intro secs
  induction secs with
  | nil => intro ix st p h; simpa [orchSections] using h
  | cons sec rest ih =>
    intro ix st p h
    obtain ⟨title, content⟩ := sec
    simp only [orchSections]
    exact ih (ix + 1) _ p
      (orchChunks_fs_mono _ _ _ _ _ _ 0 st p h)

/-- After a run, every computed output path exists on disk. -/
lemma orchSections_covers (output_dir : PyStr) (ssmlMode : Bool)
    (bk : Backend) :
    ∀ (secs : List (PyStr × PyStr)) (ix : Nat) (st : OrchState),
      ∀ p ∈ allChunkPaths output_dir ix secs,
        fsExists (orchSections output_dir ssmlMode bk ix secs st).2.fs p =
          true := by
  intro secs
  induction secs with
  | nil => intro ix st p hp; simp [allChunkPaths] at hp
  | cons sec rest ih =>
    intro ix st p hp
    obtain ⟨title, content⟩ := sec
    simp only [allChunkPaths, List.mem_append] at hp
    simp only [orchSections]
    have hlen : (if ssmlMode then
        (split_content_into_chunks content).map bk.ssmlConvert
        else split_content_into_chunks content).length =
        (split_content_into_chunks content).length := by
      by_cases hm : ssmlMode <;> simp [hm]
    rw [hlen]
    rcases hp with hp | hp
    · refine orchSections_fs_mono output_dir ssmlMode bk rest (ix + 1) _ p ?_
      refine orchChunks_covers output_dir (file_basename ix title)
        (split_content_into_chunks content).length ssmlMode bk
        (if ssmlMode then
          (split_content_into_chunks content).map bk.ssmlConvert
          else split_content_into_chunks content) 0 st p ?_
      rw [hlen]
      exact hp
    · exact ih (ix + 1) _ p hp

/-- Resumability of the section loop: when every computed output path
already exists, the run records nothing, calls nothing and writes
nothing. -/
lemma orchSections_skip (output_dir : PyStr) (ssmlMode : Bool)
    (bk : Backend) :
    ∀ (secs : List (PyStr × PyStr)) (ix : Nat) (st : OrchState),
      (∀ p ∈ allChunkPaths output_dir ix secs, fsExists st.fs p = true) →
      orchSections output_dir ssmlMode bk ix secs st =
        (List.replicate secs.length [], st) := by
  intro secs
  induction secs with
  | nil => intro ix st _; rfl
  | cons sec rest ih =>
    intro ix st h
    obtain ⟨title, content⟩ := sec
    simp only [orchSections]
    have hlen : (if ssmlMode then
        (split_content_into_chunks content).map bk.ssmlConvert
        else split_content_into_chunks content).length =
        (split_content_into_chunks content).length := by
      by_cases hm : ssmlMode <;> simp [hm]
    rw [hlen]
    have hch := orchChunks_skip output_dir (file_basename ix title)
      (split_content_into_chunks content).length ssmlMode bk
      (if ssmlMode then
        (split_content_into_chunks content).map bk.ssmlConvert
        else split_content_into_chunks content) 0 st
      (fun p hp => h p (List.mem_append.mpr (Or.inl (by
        rw [hlen] at hp
        exact hp))))
    rw [hch]
    have hrest := ih (ix + 1) st fun p hp =>
      h p (List.mem_append.mpr (Or.inr hp))
    rw [hrest]
    simp [List.replicate_succ]

lemma fsExists_write_false (fs : Fs) (p q b : PyStr)
    (h : fsExists (fsWrite fs q b) p = false) : fsExists fs p = false := by
  cases hx : fsExists fs p
  · rfl
  · rw [fsExists_write_mono fs p q b hx] at h
    exact h

lemma orchChunks_fs_mono_false (output_dir basename : PyStr)
    (num_chunks : Nat) (ssmlMode : Bool) (bk : Backend)
    (chunks : List PyStr) (j : Nat) (st : OrchState) (p : PyStr)
    (h : fsExists (orchChunks output_dir basename num_chunks ssmlMode bk
      j chunks st).2.fs p = false) : fsExists st.fs p = false := by
  cases hx : fsExists st.fs p
  · rfl
  · rw [orchChunks_fs_mono output_dir basename num_chunks ssmlMode bk
      chunks j st p hx] at h
    exact h

/-- Tuples recorded by the chunk loop are exactly for files that did not
exist when the loop reached them; in particular none of them existed when
the loop started. -/
lemma orchChunks_fresh (output_dir basename : PyStr) (num_chunks : Nat)
    (ssmlMode : Bool) (bk : Backend) :
    ∀ (chunks : List PyStr) (j : Nat) (st : OrchState),
      ∀ t ∈ (orchChunks output_dir basename num_chunks ssmlMode bk
        j chunks st).1,
        fsExists st.fs t.2.2 = false := by
  intro chunks
  induction chunks with
  | nil => intro j st t ht; simp [orchChunks] at ht
  | cons chunk rest ih =>
    intro j st t ht
    simp only [orchChunks] at ht
    by_cases hex : fsExists st.fs
        (output_dir ++ ['/'] ++ chunk_filename basename num_chunks j) = true
    · rw [if_pos hex] at ht
      exact ih (j + 1) st t ht
    · rw [if_neg hex] at ht
      rw [Bool.not_eq_true] at hex
      rcases List.mem_cons.mp ht with rfl | ht
      · exact hex
      · exact fsExists_write_false st.fs t.2.2 _ _
          (ih (j + 1) _ t ht)

/-- Every tuple in any group produced by the section loop points at a file
that did not exist when the run started. -/
lemma orchSections_fresh (output_dir : PyStr) (ssmlMode : Bool)
    (bk : Backend) :
    ∀ (secs : List (PyStr × PyStr)) (ix : Nat) (st : OrchState),
      ∀ g ∈ (orchSections output_dir ssmlMode bk ix secs st).1,
        ∀ t ∈ g, fsExists st.fs t.2.2 = false := by
  intro secs
  induction secs with
  | nil => intro ix st g hg; simp [orchSections] at hg
  | cons sec rest ih =>
    intro ix st g hg t ht
    obtain ⟨title, content⟩ := sec
    simp only [orchSections] at hg
    rcases List.mem_cons.mp hg with rfl | hg
    · exact orchChunks_fresh _ _ _ _ _ _ 0 st t ht
    · exact orchChunks_fs_mono_false _ _ _ _ _ _ 0 st t.2.2
        (ih (ix + 1) _ g hg t ht)

/-- Each recorded tuple corresponds to exactly one synthesis call: the
chunk loop grows the call trace by the number of tuples it records. -/
lemma orchChunks_calls (output_dir basename : PyStr) (num_chunks : Nat)
    (ssmlMode : Bool) (bk : Backend) :
    ∀ (chunks : List PyStr) (j : Nat) (st : OrchState),
      (orchChunks output_dir basename num_chunks ssmlMode bk
        j chunks st).2.calls.length =
      st.calls.length + (orchChunks output_dir basename num_chunks ssmlMode
        bk j chunks st).1.length := by
  intro chunks
  induction chunks with
  | nil => intro j st; simp [orchChunks]
  | cons chunk rest ih =>
    intro j st
    simp only [orchChunks]
    by_cases hex : fsExists st.fs
        (output_dir ++ ['/'] ++ chunk_filename basename num_chunks j) = true
    · rw [if_pos hex]
      exact ih (j + 1) st
    · rw [if_neg hex]
      rw [ih (j + 1)]
      simp
      omega

/-- A full run grows the call trace by the total number of recorded
tuples across all groups. -/
lemma orchSections_calls (output_dir : PyStr) (ssmlMode : Bool)
    (bk : Backend) :
    ∀ (secs : List (PyStr × PyStr)) (ix : Nat) (st : OrchState),
      (orchSections output_dir ssmlMode bk ix secs st).2.calls.length =
      st.calls.length + ((orchSections output_dir ssmlMode bk
        ix secs st).1.map List.length).sum := by
  intro secs
  induction secs with
  | nil => intro ix st; simp [orchSections]
  | cons sec rest ih =>
    intro ix st
    obtain ⟨title, content⟩ := sec
    simp only [orchSections, List.map_cons, List.sum_cons]
    rw [ih (ix + 1)]
    rw [orchChunks_calls]
    omega

/-- If the output file for chunk index `j` already exists when the chunk
loop starts, the loop records no tuple with index `j` (in the source the
`continue` fires before the synthesis call and the append, and the file is
never deleted within the loop). -/
lemma orchChunks_skip_existing (output_dir basename : PyStr)
    (num_chunks : Nat) (ssmlMode : Bool) (bk : Backend) :
    ∀ (chunks : List PyStr) (j0 : Nat) (st : OrchState) (j : Nat),
      fsExists st.fs
        (output_dir ++ ['/'] ++ chunk_filename basename num_chunks j) =
          true →
      ∀ t ∈ (orchChunks output_dir basename num_chunks ssmlMode bk
        j0 chunks st).1, t.1 ≠ j := by
  intro chunks
  induction chunks with
  | nil => intro j0 st j hj t ht; simp [orchChunks] at ht
  | cons chunk rest ih =>
    intro j0 st j hj t ht
    simp only [orchChunks] at ht
    by_cases hex : fsExists st.fs
        (output_dir ++ ['/'] ++ chunk_filename basename num_chunks j0) =
          true
    · rw [if_pos hex] at ht
      exact ih (j0 + 1) st j hj t ht
    · rw [if_neg hex] at ht
      rcases List.mem_cons.mp ht with rfl | ht
      · show j0 ≠ j
        intro hje
        subst hje
        exact hex hj
      · exact ih (j0 + 1) _ j
          (fsExists_write_mono st.fs _ _ _ hj) t ht

/-- If a chunk's computed output file already exists when the run starts,
the run records no tuple for that chunk in its section's group: the chunk
is skipped, never synthesized. -/
lemma orchSections_skip_existing (output_dir : PyStr) (ssmlMode : Bool)
    (bk : Backend) :
    ∀ (secs : List (PyStr × PyStr)) (ix : Nat) (st : OrchState) (i : Nat)
      (title content : PyStr) (g : List (Nat × PyStr × PyStr)) (j : Nat),
      secs[i]? = some (title, content) →
      (orchSections output_dir ssmlMode bk ix secs st).1[i]? = some g →
      fsExists st.fs (output_dir ++ ['/'] ++
        chunk_filename (file_basename (ix + i) title)
          (split_content_into_chunks content).length j) = true →
      ∀ t ∈ g, t.1 ≠ j := by
  intro secs
  induction secs with
  | nil => intro ix st i title content g j hs hg hj; simp at hs
  | cons sec rest ih =>
    intro ix st i title content g j hs hg hj
    obtain ⟨ti, co⟩ := sec
    simp only [orchSections] at hg
    have hlen : (if ssmlMode then
        (split_content_into_chunks co).map bk.ssmlConvert
        else split_content_into_chunks co).length =
        (split_content_into_chunks co).length := by
      by_cases hm : ssmlMode <;> simp [hm]
    cases i with
    | zero =>
      rw [List.getElem?_cons_zero] at hg hs
      obtain rfl := Option.some.inj hg
      obtain ⟨rfl, rfl⟩ := Prod.mk.injEq .. ▸ Option.some.inj hs
      rw [Nat.add_zero] at hj
      refine orchChunks_skip_existing output_dir (file_basename ix ti)
        _ ssmlMode bk _ 0 st j ?_
      rw [hlen]
      exact hj
    | succ i' =>
      rw [List.getElem?_cons_succ] at hg hs
      rw [show ix + (i' + 1) = ix + 1 + i' by omega] at hj
      refine ih (ix + 1) _ i' title content g j hs hg ?_
      exact orchChunks_fs_mono output_dir (file_basename ix ti) _ ssmlMode
        bk _ 0 st _ hj

/-- C3: in every run of the Orchestrator — against an arbitrary, possibly
partially-populated output directory — a chunk whose computed output file
already exists is skipped: no tuple for it is recorded in its section's
group, and the synthesis calls issued are exactly one per recorded tuple;
in particular, a second run against the filesystem left by a previous
identical run issues zero backend synthesis calls. -/
theorem orchestrator_idempotent (markdown_content : PyStr)
    (elements : List SoupElement) (output_dir service : PyStr)
    (split_at_subheadings use_ssml : Bool) (bk : Backend) (fs0 : Fs)
    (out1 out2 : List (List (Nat × PyStr × PyStr))) (st1 st2 : OrchState)
    (h1 : generate_speech_from_markdown markdown_content elements
      output_dir service split_at_subheadings use_ssml bk fs0 =
        .ok (out1, st1))
    (h2 : generate_speech_from_markdown markdown_content elements
      output_dir service split_at_subheadings use_ssml bk st1.fs =
        .ok (out2, st2)) :
    (∀ (i j : Nat) (title content : PyStr)
        (g : List (Nat × PyStr × PyStr)),
      (split_markdown_into_sections markdown_content elements
        split_at_subheadings)[i]? = some (title, content) →
      out1[i]? = some g →
      fsExists fs0 (output_dir ++ ['/'] ++
        chunk_filename (file_basename i title)
          (split_content_into_chunks content).length j) = true →
      ∀ t ∈ g, t.1 ≠ j) ∧
    (out1.map List.length).sum = st1.calls.length ∧
    st2.calls = [] := by
  simp only [generate_speech_from_markdown] at h1 h2
  by_cases hv : service = pystr "openai" ∨ service = pystr "google" ∨
      service = pystr "azure"
  · rw [if_pos hv] at h1 h2
    have e1 := Except.ok.inj h1
    have e2 := Except.ok.inj h2
    have hout1 : out1 = (orchSections output_dir
        (use_ssml && decide (service = pystr "azure")) bk 0
        (split_markdown_into_sections markdown_content elements
          split_at_subheadings) ⟨fs0, []⟩).1 := (congrArg Prod.fst e1).symm
    have hst1 : st1 = (orchSections output_dir
        (use_ssml && decide (service = pystr "azure")) bk 0
        (split_markdown_into_sections markdown_content elements
          split_at_subheadings) ⟨fs0, []⟩).2 := (congrArg Prod.snd e1).symm
    refine ⟨?_, ?_, ?_⟩
    · intro i j title content g hs hg hj t ht
      rw [hout1] at hg
      have := orchSections_skip_existing output_dir
        (use_ssml && decide (service = pystr "azure")) bk
        (split_markdown_into_sections markdown_content elements
          split_at_subheadings) 0 ⟨fs0, []⟩ i title content g j hs hg
        (by rw [Nat.zero_add]; exact hj) t ht
      exact this
    · rw [hout1, hst1]
      have := orchSections_calls output_dir
        (use_ssml && decide (service = pystr "azure")) bk
        (split_markdown_into_sections markdown_content elements
          split_at_subheadings) 0 ⟨fs0, []⟩
      simp only [List.length_nil] at this
      omega
    · have hcov : ∀ p ∈ allChunkPaths output_dir 0
          (split_markdown_into_sections markdown_content elements
            split_at_subheadings),
          fsExists st1.fs p = true := by
        intro p hp
        have hc := orchSections_covers output_dir
          (use_ssml && decide (service = pystr "azure")) bk
          (split_markdown_into_sections markdown_content elements
            split_at_subheadings) 0 ⟨fs0, []⟩ p hp
        rw [e1] at hc
        exact hc
      have hskip := orchSections_skip output_dir
        (use_ssml && decide (service = pystr "azure")) bk
        (split_markdown_into_sections markdown_content elements
          split_at_subheadings) 0 ⟨st1.fs, []⟩ hcov
      rw [hskip] at e2
      have : st2 = ⟨st1.fs, []⟩ := (congrArg Prod.snd e2).symm
      rw [this]
  · rw [if_neg hv] at h1
    exact absurd h1 (by simp)

/-- A concrete parsed two-section document used by the idempotence
witness. -/
def idempotenceWitnessSoup : List SoupElement :=
  [⟨some (pystr "h1"), pystr "A", true⟩,
   ⟨some (pystr "p"), pystr "x", true⟩,
   ⟨some (pystr "h1"), pystr "B", true⟩,
   ⟨some (pystr "p"), pystr "y", true⟩]

theorem orchestrator_idempotent_witness :
    (∀ (i j : Nat) (title content : PyStr)
        (g : List (Nat × PyStr × PyStr)),
      (split_markdown_into_sections (pystr "# A\nx\n# B\ny")
        idempotenceWitnessSoup false)[i]? = some (title, content) →
      ([[], [(0, pystr "02_b", pystr "out/02_b.mp3")]] :
        List (List (Nat × PyStr × PyStr)))[i]? = some g →
      fsExists [(pystr "out/01_a.mp3", pystr "OLD")]
        (pystr "out" ++ ['/'] ++
          chunk_filename (file_basename i title)
            (split_content_into_chunks content).length j) = true →
      ∀ t ∈ g, t.1 ≠ j) ∧
    (([[], [(0, pystr "02_b", pystr "out/02_b.mp3")]] :
        List (List (Nat × PyStr × PyStr))).map List.length).sum =
      (⟨[(pystr "out/01_a.mp3", pystr "OLD"),
         (pystr "out/02_b.mp3", pystr "AUDIO")],
        [SynthRequest.text (pystr "B\n\ny")]⟩ : OrchState).calls.length ∧
    (⟨[(pystr "out/01_a.mp3", pystr "OLD"),
       (pystr "out/02_b.mp3", pystr "AUDIO")], []⟩ :
      OrchState).calls = [] :=
  orchestrator_idempotent (pystr "# A\nx\n# B\ny")
    idempotenceWitnessSoup (pystr "out") (pystr "openai") false false
    constBackend [(pystr "out/01_a.mp3", pystr "OLD")]
    [[], [(0, pystr "02_b", pystr "out/02_b.mp3")]] [[], []]
    ⟨[(pystr "out/01_a.mp3", pystr "OLD"),
      (pystr "out/02_b.mp3", pystr "AUDIO")],
     [SynthRequest.text (pystr "B\n\ny")]⟩
    ⟨[(pystr "out/01_a.mp3", pystr "OLD"),
      (pystr "out/02_b.mp3", pystr "AUDIO")], []⟩
    (by rfl) (by rfl)

/-- C10: the groups returned by a run contain exactly the tuples for
chunks synthesized during that run — no tuple points at a file that
already existed before the run (so a pre-existing chunk is absent from the
group the Concatenator later merges), and the total number of recorded
tuples equals the number of synthesis calls issued. -/
theorem run_groups_exclude_preexisting (markdown_content : PyStr)
    (elements : List SoupElement) (output_dir service : PyStr)
    (split_at_subheadings use_ssml : Bool) (bk : Backend) (fs0 : Fs)
    (out : List (List (Nat × PyStr × PyStr))) (st : OrchState)
    (h : generate_speech_from_markdown markdown_content elements
      output_dir service split_at_subheadings use_ssml bk fs0 =
        .ok (out, st)) :
    (∀ g ∈ out, ∀ t ∈ g, fsExists fs0 t.2.2 = false) ∧
    (out.map List.length).sum = st.calls.length := by
  simp only [generate_speech_from_markdown] at h
  by_cases hv : service = pystr "openai" ∨ service = pystr "google" ∨
      service = pystr "azure"
  · rw [if_pos hv] at h
    have e := Except.ok.inj h
    have hout : out = (orchSections output_dir
        (use_ssml && decide (service = pystr "azure")) bk 0
        (split_markdown_into_sections markdown_content elements
          split_at_subheadings) ⟨fs0, []⟩).1 := (congrArg Prod.fst e).symm
    have hst : st = (orchSections output_dir
        (use_ssml && decide (service = pystr "azure")) bk 0
        (split_markdown_into_sections markdown_content elements
          split_at_subheadings) ⟨fs0, []⟩).2 := (congrArg Prod.snd e).symm
    constructor
    · intro g hg t ht
      rw [hout] at hg
      exact orchSections_fresh output_dir
        (use_ssml && decide (service = pystr "azure")) bk
        (split_markdown_into_sections markdown_content elements
          split_at_subheadings) 0 ⟨fs0, []⟩ g hg t ht
    · rw [hout, hst]
      have := orchSections_calls output_dir
        (use_ssml && decide (service = pystr "azure")) bk
        (split_markdown_into_sections markdown_content elements
          split_at_subheadings) 0 ⟨fs0, []⟩
      simp only [List.length_nil] at this
      omega
  · rw [if_neg hv] at h
    exact absurd h (by simp)

theorem run_groups_exclude_preexisting_witness :
    (∀ g ∈ ([[]] : List (List (Nat × PyStr × PyStr))), ∀ t ∈ g,
      fsExists [(pystr "out/01_content.mp3", pystr "OLD")] t.2.2 = false) ∧
    (([[]] : List (List (Nat × PyStr × PyStr))).map List.length).sum =
      (⟨[(pystr "out/01_content.mp3", pystr "OLD")], []⟩ :
        OrchState).calls.length :=
  run_groups_exclude_preexisting (pystr "Hi.")
    [⟨some (pystr "p"), pystr "Hi.", true⟩]
    (pystr "out") (pystr "openai") false false constBackend
    [(pystr "out/01_content.mp3", pystr "OLD")] [[]]
    ⟨[(pystr "out/01_content.mp3", pystr "OLD")], []⟩ (by rfl)

/-- Every tuple the chunk loop records carries the section's basename and
the filename formula for its own chunk index. -/
lemma orchChunks_shape (output_dir basename : PyStr) (num_chunks : Nat)
    (ssmlMode : Bool) (bk : Backend) :
    ∀ (chunks : List PyStr) (j : Nat) (st : OrchState),
      ∀ t ∈ (orchChunks output_dir basename num_chunks ssmlMode bk
        j chunks st).1,
        t.2.1 = basename ∧
        t.2.2 = output_dir ++ ['/'] ++
          chunk_filename basename num_chunks t.1 := by
  intro chunks
  induction chunks with
  | nil => intro j st t ht; simp [orchChunks] at ht
  | cons chunk rest ih =>
    intro j st t ht
    simp only [orchChunks] at ht
    by_cases hex : fsExists st.fs
        (output_dir ++ ['/'] ++ chunk_filename basename num_chunks j) = true
    · rw [if_pos hex] at ht
      exact ih (j + 1) st t ht
    · rw [if_neg hex] at ht
      rcases List.mem_cons.mp ht with rfl | ht
      · exact ⟨rfl, rfl⟩
      · exact ih (j + 1) _ t ht

lemma orchSections_length (output_dir : PyStr) (ssmlMode : Bool)
    (bk : Backend) :
    ∀ (secs : List (PyStr × PyStr)) (ix : Nat) (st : OrchState),
      (orchSections output_dir ssmlMode bk ix secs st).1.length =
        secs.length := by
  intro secs
  induction secs with
  | nil => intro ix st; rfl
  | cons sec rest ih =>
    intro ix st
    obtain ⟨title, content⟩ := sec
    simp only [orchSections, List.length_cons]
    rw [ih (ix + 1)]

/-- The group at position `i` of a run's output corresponds to the section
at position `i`: its tuples carry that section's basename (built from the
ordinal `ix + i` and the title) and the filename formula with that
section's chunk count. -/
lemma orchSections_shape (output_dir : PyStr) (ssmlMode : Bool)
    (bk : Backend) :
    ∀ (secs : List (PyStr × PyStr)) (ix : Nat) (st : OrchState) (i : Nat)
      (g : List (Nat × PyStr × PyStr)) (title content : PyStr),
      (orchSections output_dir ssmlMode bk ix secs st).1[i]? = some g →
      secs[i]? = some (title, content) →
      ∀ t ∈ g,
        t.2.1 = file_basename (ix + i) title ∧
        t.2.2 = output_dir ++ ['/'] ++
          chunk_filename (file_basename (ix + i) title)
            (split_content_into_chunks content).length t.1 := by
  intro secs
  induction secs with
  | nil => intro ix st i g title content hg hs; simp at hs
  | cons sec rest ih =>
    intro ix st i g title content hg hs
    obtain ⟨ti, co⟩ := sec
    simp only [orchSections] at hg
    have hlen : (if ssmlMode then
        (split_content_into_chunks co).map bk.ssmlConvert
        else split_content_into_chunks co).length =
        (split_content_into_chunks co).length := by
      by_cases hm : ssmlMode <;> simp [hm]
    cases i with
    | zero =>
      rw [List.getElem?_cons_zero] at hg hs
      obtain rfl := Option.some.inj hg
      obtain ⟨rfl, rfl⟩ := Prod.mk.injEq .. ▸ Option.some.inj hs
      intro t ht
      have hsh := orchChunks_shape output_dir (file_basename ix ti)
        (if ssmlMode then
          (split_content_into_chunks co).map bk.ssmlConvert
          else split_content_into_chunks co).length ssmlMode bk
        (if ssmlMode then
          (split_content_into_chunks co).map bk.ssmlConvert
          else split_content_into_chunks co) 0 st t ht
      rw [hlen] at hsh
      simpa using hsh
    | succ i' =>
      rw [List.getElem?_cons_succ] at hg hs
      have hih := ih (ix + 1) _ i' g title content hg hs
      intro t ht
      have := hih t ht
      rw [show ix + 1 + i' = ix + (i' + 1) by omega] at this
      exact this

/-- C7: in every run of the Orchestrator, each recorded tuple of the
`i`-th section group carries the basename
`f"{i+1:02d}_{safe_title(title)[:30]}"` and the filename
`basename + ".mp3"` when the section has exactly one chunk, else
`basename + f"_pt{chunk_ix:02d}" + ".mp3"` (the formula is
`chunk_filename`, applied to the section's chunk count and the tuple's own
chunk index). -/
theorem orchestrator_filenames (markdown_content : PyStr)
    (elements : List SoupElement) (output_dir service : PyStr)
    (split_at_subheadings use_ssml : Bool) (bk : Backend) (fs0 : Fs)
    (out : List (List (Nat × PyStr × PyStr))) (st : OrchState)
    (h : generate_speech_from_markdown markdown_content elements
      output_dir service split_at_subheadings use_ssml bk fs0 =
        .ok (out, st)) :
    out.length = (split_markdown_into_sections markdown_content elements
      split_at_subheadings).length ∧
    ∀ (i : Nat) (g : List (Nat × PyStr × PyStr)) (title content : PyStr),
      out[i]? = some g →
      (split_markdown_into_sections markdown_content elements
        split_at_subheadings)[i]? = some (title, content) →
      ∀ t ∈ g,
        t.2.1 = file_basename i title ∧
        t.2.2 = output_dir ++ ['/'] ++
          chunk_filename (file_basename i title)
            (split_content_into_chunks content).length t.1 := by
  simp only [generate_speech_from_markdown] at h
  by_cases hv : service = pystr "openai" ∨ service = pystr "google" ∨
      service = pystr "azure"
  · rw [if_pos hv] at h
    have e := Except.ok.inj h
    have hout : out = (orchSections output_dir
        (use_ssml && decide (service = pystr "azure")) bk 0
        (split_markdown_into_sections markdown_content elements
          split_at_subheadings) ⟨fs0, []⟩).1 := (congrArg Prod.fst e).symm
    constructor
    · rw [hout]
      exact orchSections_length output_dir
        (use_ssml && decide (service = pystr "azure")) bk
        (split_markdown_into_sections markdown_content elements
          split_at_subheadings) 0 ⟨fs0, []⟩
    · intro i g title content hg hs t ht
      rw [hout] at hg
      have := orchSections_shape output_dir
        (use_ssml && decide (service = pystr "azure")) bk
        (split_markdown_into_sections markdown_content elements
          split_at_subheadings) 0 ⟨fs0, []⟩ i g title content hg hs t ht
      rw [Nat.zero_add] at this
      exact this
  · rw [if_neg hv] at h
    exact absurd h (by simp)

theorem orchestrator_filenames_witness :
    ([[(0, pystr "01_content", pystr "out/01_content.mp3")]] :
        List (List (Nat × PyStr × PyStr))).length =
      (split_markdown_into_sections (pystr "Hi.")
        [⟨some (pystr "p"), pystr "Hi.", true⟩] false).length ∧
    ∀ (i : Nat) (g : List (Nat × PyStr × PyStr)) (title content : PyStr),
      ([[(0, pystr "01_content", pystr "out/01_content.mp3")]] :
        List (List (Nat × PyStr × PyStr)))[i]? = some g →
      (split_markdown_into_sections (pystr "Hi.")
        [⟨some (pystr "p"), pystr "Hi.", true⟩] false)[i]? =
          some (title, content) →
      ∀ t ∈ g,
        t.2.1 = file_basename i title ∧
        t.2.2 = pystr "out" ++ ['/'] ++
          chunk_filename (file_basename i title)
            (split_content_into_chunks content).length t.1 :=
  orchestrator_filenames (pystr "Hi.")
    [⟨some (pystr "p"), pystr "Hi.", true⟩]
    (pystr "out") (pystr "openai") false false constBackend []
    [[(0, pystr "01_content", pystr "out/01_content.mp3")]]
    ⟨[(pystr "out/01_content.mp3", pystr "AUDIO")],
     [SynthRequest.text (pystr "Hi.")]⟩ (by rfl)

theorem markup_mode_ignored_on_non_azure_witness :
    generate_speech_from_markdown (pystr "Hi.")
        [⟨some (pystr "p"), pystr "Hi.", true⟩]
        (pystr "out") (pystr "google") false true constBackend [] =
      generate_speech_from_markdown (pystr "Hi.")
        [⟨some (pystr "p"), pystr "Hi.", true⟩]
        (pystr "out") (pystr "google") false false constBackend [] :=
  markup_mode_ignored_on_non_azure (pystr "Hi.")
    [⟨some (pystr "p"), pystr "Hi.", true⟩]
    (pystr "out") (pystr "google") false constBackend [] (by decide)

theorem sectioner_no_headings_witness :
    split_markdown_into_sections (pystr "just text. more text.")
        [⟨some (pystr "p"), pystr "just text. more text.", true⟩] false =
      [(pystr "Content", pystr "just text. more text.")] :=
  sectioner_no_headings (pystr "just text. more text.")
    [⟨some (pystr "p"), pystr "just text. more text.", true⟩] false
    (by decide)

/-! ### Concatenator (`merge_audio_files`, claim C8)

The pydub/ffmpeg codec is an external collaborator: decoding a chunk file,
appending it to the running `AudioSegment`, and exporting the merge are
modelled as concatenation of the files' byte strings.  Python's stable
`sorted(section, key=lambda tup: tup[0])` is modelled by a stable insertion
sort on the chunk index. -/

/-- Reading a file's bytes (`AudioSegment.from_file` / `shutil.copy`
source); `none` when the path does not exist. -/
def fsLookup (fs : Fs) (path : PyStr) : Option PyStr :=
  (fs.find? fun pb => pb.1 = path).map Prod.snd

/-- Insert a tuple after all tuples with a strictly smaller chunk index
(stable insertion). -/
def insertByIx (t : Nat × PyStr × PyStr) :
    List (Nat × PyStr × PyStr) → List (Nat × PyStr × PyStr)
  | [] => [t]
  | u :: us => if u.1 < t.1 then u :: insertByIx t us else t :: u :: us

/-- Python's stable `sorted(section, key=lambda tup: tup[0])`
(`audio_concatenator.py`, line 49). -/
def sortByChunkIx : List (Nat × PyStr × PyStr) → List (Nat × PyStr × PyStr)
  | [] => []
  | t :: ts => insertByIx t (sortByChunkIx ts)

/-- The inner merge loop (`audio_concatenator.py`, lines 51–56): per tuple
in sorted order, append the file's audio when the file exists, else record
a warning naming the missing file and continue.  Returns the merged bytes
and the warned-about paths, in loop order. -/
def mergeChunkFold (fs : Fs) :
    List (Nat × PyStr × PyStr) → PyStr × List PyStr
  | [] => ([], [])
  | t :: ts =>
    let r := mergeChunkFold fs ts
    match fsLookup fs t.2.2 with
    | some bytes => (bytes ++ r.1, r.2)
    | none => (r.1, t.2.2 :: r.2)

/-- Observable state of a merge run: the produced output paths, the
filesystem, and the emitted missing-file warnings (by path). -/
structure MergeState where
  outputs : List PyStr
  fs : Fs
  warnings : List PyStr
  deriving DecidableEq

/-- The per-section body of `merge_audio_files` (`audio_concatenator.py`,
lines 32–64): skip an empty group; for a single-chunk group copy the file
to the output directory if it exists (silently doing nothing otherwise);
for a multi-chunk group sort by chunk index, concatenate the audio of the
files that exist — warning about those that do not — and export the result
once. -/
def mergeSection (output_dir : PyStr) (st : MergeState)
    (sec : List (Nat × PyStr × PyStr)) : MergeState :=
  match sec with
  | [] => st
  | first :: _ =>
    let output_filename := output_dir ++ ['/'] ++ first.2.1 ++ pystr ".mp3"
    if sec.length = 1 then
      match fsLookup st.fs first.2.2 with
      | some bytes =>
        ⟨st.outputs ++ [output_filename],
         fsWrite st.fs output_filename bytes, st.warnings⟩
      | none => st
    else
      let r := mergeChunkFold st.fs (sortByChunkIx sec)
      ⟨st.outputs ++ [output_filename],
       fsWrite st.fs output_filename r.1, st.warnings ++ r.2⟩

/-- Embedding of `merge_audio_files(chunked_audio_list, output_dir,
temp_dir)` (`audio_concatenator.py`, lines 15–66), with the audio
framework assumed available (its absence aborts before any merging). -/
def merge_audio_files (chunked_audio_list : List (List (Nat × PyStr × PyStr)))
    (output_dir : PyStr) (fs : Fs) : MergeState :=
  chunked_audio_list.foldl (mergeSection output_dir) ⟨[], fs, []⟩

lemma fsLookup_isSome (fs : Fs) (p : PyStr) :
    (fsLookup fs p).isSome = fsExists fs p := by
  unfold fsLookup fsExists
  cases hf : fs.find? fun pb => pb.1 = p with
  | none =>
    rw [List.find?_eq_none] at hf
    simp only [Option.map_none', Option.isSome_none, Bool.false_eq,
      List.any_eq_false]
    intro x hx
    simpa using hf x hx
  | some x =>
    have hx := List.find?_some hf
    have hmem := List.mem_of_find?_eq_some hf
    simp only [Option.map_some', Option.isSome_some, Bool.true_eq,
      List.any_eq_true]
    exact ⟨x, hmem, hx⟩

/-- The merge loop produces exactly the concatenation of the bytes of the
files that exist and one warning per file that does not, in order. -/
lemma mergeChunkFold_spec (fs : Fs) (l : List (Nat × PyStr × PyStr)) :
    mergeChunkFold fs l =
      ((l.filterMap fun t => fsLookup fs t.2.2).flatten,
       (l.filter fun t => !(fsExists fs t.2.2)).map fun t => t.2.2) := by
  induction l with
  | nil => rfl
  | cons t ts ih =>
    simp only [mergeChunkFold, ih]
    cases hlk : fsLookup fs t.2.2 with
    | some b =>
      have hex : fsExists fs t.2.2 = true := by
        rw [← fsLookup_isSome, hlk]; rfl
      simp [hlk, hex]
    | none =>
      have hex : fsExists fs t.2.2 = false := by
        rw [← fsLookup_isSome, hlk]; rfl
      simp [hlk, hex]

/-- C8 counterexample: a single-chunk section group whose file is missing
at merge time produces no diagnostic at all (and no output artifact): the
merge state is returned unchanged, with an empty warning list. -/
theorem merge_missing_single_counterexample :
    fsExists [] (pystr "tmp/01_a.mp3") = false ∧
    mergeSection (pystr "out") ⟨[], [], []⟩
        [(0, pystr "01_a", pystr "tmp/01_a.mp3")] =
      ⟨[], [], []⟩ := ⟨rfl, rfl⟩

/-- C8 (amended): for a multi-chunk section group, a missing chunk file is
non-fatal: the merge emits one diagnostic per missing file, skips that
chunk's audio, and still exports the section's artifact from the chunks
that are present, in chunk-index order.  (For a single-chunk group the
missing file is skipped silently: no diagnostic and no artifact.) -/
theorem merge_missing_nonfatal (output_dir : PyStr) (st : MergeState)
    (first : Nat × PyStr × PyStr) (rest : List (Nat × PyStr × PyStr))
    (hmulti : rest ≠ []) :
    mergeSection output_dir st (first :: rest) =
      ⟨st.outputs ++ [output_dir ++ ['/'] ++ first.2.1 ++ pystr ".mp3"],
       fsWrite st.fs (output_dir ++ ['/'] ++ first.2.1 ++ pystr ".mp3")
         (((sortByChunkIx (first :: rest)).filterMap fun t =>
            fsLookup st.fs t.2.2).flatten),
       st.warnings ++
         (((sortByChunkIx (first :: rest)).filter fun t =>
            !(fsExists st.fs t.2.2)).map fun t => t.2.2)⟩ := by
  have hlen : ¬ (first :: rest).length = 1 := by
    cases rest with
    | nil => exact absurd rfl hmulti
    | cons x xs => simp
  simp only [mergeSection, if_neg hlen, mergeChunkFold_spec]

theorem merge_missing_nonfatal_witness :
    mergeSection (pystr "out")
        ⟨[], [(pystr "tmp/01_a_pt00.mp3", pystr "X")], []⟩
        [(0, pystr "01_a", pystr "tmp/01_a_pt00.mp3"),
         (1, pystr "01_a", pystr "tmp/01_a_pt01.mp3")] =
      ⟨[] ++ [pystr "out" ++ ['/'] ++ pystr "01_a" ++ pystr ".mp3"],
       fsWrite [(pystr "tmp/01_a_pt00.mp3", pystr "X")]
         (pystr "out" ++ ['/'] ++ pystr "01_a" ++ pystr ".mp3")
         (((sortByChunkIx
            [(0, pystr "01_a", pystr "tmp/01_a_pt00.mp3"),
             (1, pystr "01_a", pystr "tmp/01_a_pt01.mp3")]).filterMap
              fun t =>
                fsLookup [(pystr "tmp/01_a_pt00.mp3", pystr "X")]
                  t.2.2).flatten),
       [] ++ (((sortByChunkIx
            [(0, pystr "01_a", pystr "tmp/01_a_pt00.mp3"),
             (1, pystr "01_a", pystr "tmp/01_a_pt01.mp3")]).filter
              fun t =>
                !(fsExists [(pystr "tmp/01_a_pt00.mp3", pystr "X")]
                  t.2.2)).map fun t => t.2.2)⟩ :=
  merge_missing_nonfatal (pystr "out")
    ⟨[], [(pystr "tmp/01_a_pt00.mp3", pystr "X")], []⟩
    (0, pystr "01_a", pystr "tmp/01_a_pt00.mp3")
    [(1, pystr "01_a", pystr "tmp/01_a_pt01.mp3")] (by decide)

example :
    mergeSection (pystr "out")
        ⟨[], [(pystr "tmp/01_a_pt00.mp3", pystr "X")], []⟩
        [(0, pystr "01_a", pystr "tmp/01_a_pt00.mp3"),
         (1, pystr "01_a", pystr "tmp/01_a_pt01.mp3")] =
      ⟨[pystr "out/01_a.mp3"],
       [(pystr "tmp/01_a_pt00.mp3", pystr "X"),
        (pystr "out/01_a.mp3", pystr "X")],
       [pystr "tmp/01_a_pt01.mp3"]⟩ := by decide

/-! ### End-to-end scenario (claim C9)

External parse of the scenario document, modelled from the collaborators'
documented behaviour: Python-Markdown renders
`"# Chapter One\nHello. World."` to
`"<h1>Chapter One</h1>\n<p>Hello. World.</p>"` (top-level blocks joined by
a newline), and BeautifulSoup's `html.parser` presents that markup's
top-level contents as the tag `h1`, the whitespace text node `"\n"`, and
the tag `p` — the whitespace text node is a real element of
`soup.contents` and of the sibling chain the Sectioner walks. -/

def c9_document : PyStr := pystr "# Chapter One\nHello. World."

def c9_soup : List SoupElement :=
  [⟨some (pystr "h1"), pystr "Chapter One", true⟩,
   ⟨none, pystr "\n", true⟩,
   ⟨some (pystr "p"), pystr "Hello. World.", true⟩]

/-- C9 counterexample: the single section produced for the scenario
document is not `("Chapter One", "Chapter One\n\nHello. World.\n\n")` —
the `"\n"` text node between the two blocks contributes `"\n\n\n"` to the
section content, giving five consecutive newlines after the title. -/
theorem scenario_chapter_one_counterexample :
    split_markdown_into_sections c9_document c9_soup false ≠
      [(pystr "Chapter One", pystr "Chapter One\n\nHello. World.\n\n")] ∧
    split_markdown_into_sections c9_document c9_soup false =
      [(pystr "Chapter One",
        pystr "Chapter One\n\n\n\n\nHello. World.\n\n")] := by
  constructor
  · decide
  · decide

/-- C9 (amended): the scenario document yields exactly one section
`("Chapter One", "Chapter One\n\n\n\n\nHello. World.\n\n")` (the
inter-block text node adds three extra newlines), exactly one chunk, and
exactly one output file `01_chapter_one.mp3`. -/
theorem scenario_chapter_one_amended :
    split_markdown_into_sections c9_document c9_soup false =
      [(pystr "Chapter One",
        pystr "Chapter One\n\n\n\n\nHello. World.\n\n")] ∧
    split_content_into_chunks
        (pystr "Chapter One\n\n\n\n\nHello. World.\n\n") 4096 =
      [pystr "Chapter One\n\n\n\n\nHello. World."] ∧
    generate_speech_from_markdown c9_document c9_soup (pystr "out")
        (pystr "openai") false false constBackend [] =
      .ok ([[(0, pystr "01_chapter_one", pystr "out/01_chapter_one.mp3")]],
        ⟨[(pystr "out/01_chapter_one.mp3", pystr "AUDIO")],
         [SynthRequest.text
           (pystr "Chapter One\n\n\n\n\nHello. World.")]⟩) := by
  refine ⟨by decide, by decide, by rfl⟩
